import Mathlib

/-!
Shallow embedding of the RISC-V emulator in `src/emulator.py` and proofs about
its specification.  The Python program works on unbounded integers; machine
words never wrap, so registers are modelled as `Int`, memory bytes and
addresses as `Nat`.  The Python operators on `int` are embedded explicitly:
`x >> k` is an arithmetic shift, i.e. floor division by `2 ^ k`; `x << k` is
multiplication by `2 ^ k`; `^`, `|`, `&` act on the twos-complement bit
pattern; `x & 0xFF` on a (possibly negative) `int` equals `x mod 256` with a
nonnegative remainder, which is how the byte extraction in `Ram.store` is
rendered.  Fallible code (`raise` / failing `assert`) is rendered with
`Except` / an explicit error component.
-/

namespace Emulator

/-- Python `v >> k` on `int`: arithmetic right shift, floor division. -/
def pyShiftRight (v : Int) (k : Nat) : Int := Int.fdiv v (2 ^ k)

/-- Python `v << k` on `int`: multiplication by `2 ^ k`. -/
def pyShiftLeft (v : Int) (k : Nat) : Int := v * 2 ^ k

/-- Python `a ^ b` on `int`: XOR of twos-complement bit patterns.
`Int.negSucc m` has bit pattern `NOT m`, and `x XOR NOT y = NOT (x XOR y)`. -/
def pyXor (a b : Int) : Int :=
  match a, b with
  | .ofNat m, .ofNat n => .ofNat (m ^^^ n)
  | .ofNat m, .negSucc n => .negSucc (m ^^^ n)
  | .negSucc m, .ofNat n => .negSucc (m ^^^ n)
  | .negSucc m, .negSucc n => .ofNat (m ^^^ n)

/-- Python `a & b` on `int`.  For a nonnegative `m` and bit pattern `NOT n`,
`m AND NOT n` is the set difference `m minus (m AND n)`, i.e.
`m XOR (m AND n)`; `NOT m AND NOT n = NOT (m OR n)`. -/
def pyAnd (a b : Int) : Int :=
  match a, b with
  | .ofNat m, .ofNat n => .ofNat (m &&& n)
  | .ofNat m, .negSucc n => .ofNat (m ^^^ (m &&& n))
  | .negSucc m, .ofNat n => .ofNat (n ^^^ (n &&& m))
  | .negSucc m, .negSucc n => .negSucc (m ||| n)

/-- Python `a | b` on `int`.  `m OR NOT n = NOT (n minus (n AND m))` and
`NOT m OR NOT n = NOT (m AND n)`. -/
def pyOr (a b : Int) : Int :=
  match a, b with
  | .ofNat m, .ofNat n => .ofNat (m ||| n)
  | .ofNat m, .negSucc n => .negSucc (n ^^^ (n &&& m))
  | .negSucc m, .ofNat n => .negSucc (m ^^^ (m &&& n))
  | .negSucc m, .negSucc n => .negSucc (m &&& n)

/-- Python `v & 0xFF` after `v >> (i*8)`: one little-endian byte of `v`,
`(v >> (i*8)) mod 256` (Python `&` with an all-ones low mask is `mod`). -/
def pyByte (v : Int) (i : Nat) : Nat := ((pyShiftRight v (i * 8)).emod 256).toNat

/-- Error taxonomy of the emulator: `AssertionError` raised by
`Ram.read_file` for an oversized image, `RuntimeError` raised by
`Cpu.execute` for an unknown opcode. -/
inductive Err where
  | pathTooLarge
  | unknownInstruction
deriving DecidableEq

/-- `class Ram`: the backing byte store `self._raw`. -/
structure Ram where
  raw : List Nat
deriving DecidableEq

namespace Ram

/-- `Ram.SIZE = 1024 * 1024 + 1`. -/
def SIZE : Nat := 1024 * 1024 + 1

/-- `Ram.BASE = 0x80000000`. -/
def BASE : Nat := 0x80000000

/-- `Ram.__init__`: `bytearray(SIZE)`, SIZE zero bytes. -/
def init : Ram := ⟨List.replicate SIZE 0⟩

/-- `Ram.load`: assemble `size / 8` bytes starting at `addr - BASE`,
little-endian (byte `i` shifted left by `i * 8`). -/
def load (ram : Ram) (addr size : Nat) : Nat :=
  (List.range (size / 8)).foldl
    (fun result i => result ||| (ram.raw.getD (addr - BASE + i) 0 <<< (i * 8))) 0

/-- `Ram.store`: write the `size / 8` little-endian bytes
`(value >> (i*8)) & 0xFF` at `addr - BASE`. -/
def store (ram : Ram) (addr size : Nat) (value : Int) : Ram :=
  ⟨(List.range (size / 8)).foldl
    (fun raw i => raw.set (addr - BASE + i) (pyByte value i)) ram.raw⟩

/-- `Ram.read_file`: the bytes of the file at `path` are passed as `data`.
The Python code reads at most `SIZE + 1` bytes, asserts that it got at most
`SIZE` of them, and only on success replaces the backing store; when the
assertion fails the store is untouched, which the explicit `Ram` component of
the result records. -/
def read_file (ram : Ram) (data : List Nat) : Option Err × Ram :=
  let got := data.take (SIZE + 1)
  if got.length ≤ SIZE then (none, ⟨got⟩) else (some .pathTooLarge, ram)

end Ram

/-- `class Bus`: thin wrapper delegating verbatim to the one attached `Ram`. -/
structure Bus where
  ram : Ram
deriving DecidableEq

namespace Bus

def load (bus : Bus) (addr size : Nat) : Nat := bus.ram.load addr size

def store (bus : Bus) (addr size : Nat) (value : Int) : Bus :=
  ⟨bus.ram.store addr size value⟩

end Bus

/-- `class Cpu`: attached bus, program counter, 32-entry register file. -/
structure Cpu where
  bus : Bus
  pc : Nat
  regs : List Int
deriving DecidableEq

namespace Cpu

def OP_LOAD : Nat := 0b0000011
def OP_IMM : Nat := 0b0010011
def OP_STORE : Nat := 0b0100011
def FUNCT3_ADDI : Nat := 0b000
def FUNCT3_SLL : Nat := 0b001
def FUNCT3_SLTI : Nat := 0b010
def FUNCT3_SLTIU : Nat := 0b011
def FUNCT3_XORI : Nat := 0b100
def FUNCT3_SRL_SRA : Nat := 0b101
def FUNCT3_ORI : Nat := 0b110
def FUNCT3_ANDI : Nat := 0b111
def FUNCT7_SRLI : Nat := 0b0000000
def FUNCT7_SRAI : Nat := 0b0100000
def REGISTER_SP : Nat := 2

/-- `Cpu.__init__`: PC at the memory base, all registers zero except the
stack pointer, set to `BASE + SIZE`. -/
def init (bus : Bus) : Cpu :=
  { bus := bus
    pc := Ram.BASE
    regs := (List.replicate 32 (0 : Int)).set REGISTER_SP ((Ram.BASE : Int) + Ram.SIZE) }

/-- `Cpu._rd`: bits 11..7. -/
def _rd (inst : Nat) : Nat := (inst >>> 7) &&& 0x1F

/-- `Cpu._rs1`: bits 19..15. -/
def _rs1 (inst : Nat) : Nat := (inst >>> 15) &&& 0x1F

/-- `Cpu._rs2`: bits 24..20. -/
def _rs2 (inst : Nat) : Nat := (inst >>> 20) &&& 0x1F

/-- `Cpu._imm_I`: `(inst & 0xFFF00000) >> 20`. -/
def _imm_I (inst : Nat) : Nat := (inst &&& 0xFFF00000) >>> 20

/-- `Cpu._imm_S`. -/
def _imm_S (inst : Nat) : Nat :=
  ((inst &&& 0xFE000000) >>> 20) ||| ((inst >>> 7) &&& 0x1F)

/-- `Cpu._imm_B`. -/
def _imm_B (inst : Nat) : Nat :=
  ((inst &&& 0x80000000) >>> 19) ||| ((inst &&& 0x80) <<< 4) |||
    ((inst >>> 20) &&& 0x7E0) ||| ((inst >>> 7) &&& 0x1E)

/-- `Cpu._imm_U`: `inst & 0xFFFFF999` (the mask the source actually uses). -/
def _imm_U (inst : Nat) : Nat := inst &&& 0xFFFFF999

/-- `Cpu._imm_J`. -/
def _imm_J (inst : Nat) : Nat :=
  ((inst &&& 0x80000000) >>> 11) ||| (inst &&& 0xFF000) |||
    ((inst >>> 9) &&& 0x800) ||| ((inst >>> 20) &&& 0x7FE)

/-- `Cpu._shamt`: low 5 bits of the I-type immediate. -/
def _shamt (inst : Nat) : Nat := _imm_I inst &&& 0x1F

/-- `Cpu.exec_ADDI`. -/
def exec_ADDI (c : Cpu) (inst : Nat) : Cpu :=
  { c with regs := c.regs.set (_rd inst) (c.regs.getD (_rs1 inst) 0 + (_imm_I inst : Int)) }

/-- `Cpu.exec_SLTI`. -/
def exec_SLTI (c : Cpu) (inst : Nat) : Cpu :=
  let v : Int := if c.regs.getD (_rs1 inst) 0 < (_imm_I inst : Int) then 1 else 0
  { c with regs := c.regs.set (_rd inst) v }

/-- `Cpu.exec_SLTIU`: the source body is identical to `exec_SLTI`. -/
def exec_SLTIU (c : Cpu) (inst : Nat) : Cpu :=
  let v : Int := if c.regs.getD (_rs1 inst) 0 < (_imm_I inst : Int) then 1 else 0
  { c with regs := c.regs.set (_rd inst) v }

/-- `Cpu.exec_SRAI`: shifts by `imm = self._imm_I(inst)`, the full 12-bit
I-immediate, not by `self._shamt(inst)`. -/
def exec_SRAI (c : Cpu) (inst : Nat) : Cpu :=
  { c with regs := c.regs.set (_rd inst) (pyShiftRight (c.regs.getD (_rs1 inst) 0) (_imm_I inst)) }

/-- `Cpu.exec_XORI`. -/
def exec_XORI (c : Cpu) (inst : Nat) : Cpu :=
  { c with regs := c.regs.set (_rd inst) (pyXor (c.regs.getD (_rs1 inst) 0) (_imm_I inst : Int)) }

/-- `Cpu.exec_ORI`. -/
def exec_ORI (c : Cpu) (inst : Nat) : Cpu :=
  { c with regs := c.regs.set (_rd inst) (pyOr (c.regs.getD (_rs1 inst) 0) (_imm_I inst : Int)) }

/-- `Cpu.exec_ANDI`. -/
def exec_ANDI (c : Cpu) (inst : Nat) : Cpu :=
  { c with regs := c.regs.set (_rd inst) (pyAnd (c.regs.getD (_rs1 inst) 0) (_imm_I inst : Int)) }

/-- `Cpu.exec_SLLI`: shifts by `self._shamt(inst)`. -/
def exec_SLLI (c : Cpu) (inst : Nat) : Cpu :=
  { c with regs := c.regs.set (_rd inst) (pyShiftLeft (c.regs.getD (_rs1 inst) 0) (_shamt inst)) }

/-- `Cpu.exec_SRLI`: shifts by `self._shamt(inst)`. -/
def exec_SRLI (c : Cpu) (inst : Nat) : Cpu :=
  { c with regs := c.regs.set (_rd inst) (pyShiftRight (c.regs.getD (_rs1 inst) 0) (_shamt inst)) }

/-- `Cpu.execute`: zero register 0, then dispatch on opcode / funct3 /
funct7.  The two bare `pass` arms of the source are the two trailing
identity branches; an opcode outside LOAD / IMM / STORE raises
`RuntimeError`. -/
def execute (c : Cpu) (inst : Nat) : Except Err Cpu :=
  let opcode := inst &&& 0x7F
  let funct3 := (inst >>> 12) &&& 0x7
  let funct7 := (inst >>> 25) &&& 0x7F
  let c := { c with regs := c.regs.set 0 0 }
  if opcode = OP_LOAD ∨ opcode = OP_IMM ∨ opcode = OP_STORE then
    .ok <|
      if funct3 = FUNCT3_ADDI then c.exec_ADDI inst
      else if funct3 = FUNCT3_SLL then c.exec_SLLI inst
      else if funct3 = FUNCT3_SLTI then c.exec_SLTI inst
      else if funct3 = FUNCT3_SLTIU then c.exec_SLTIU inst
      else if funct3 = FUNCT3_XORI then c.exec_XORI inst
      else if funct3 = FUNCT3_SRL_SRA then
        if funct7 = FUNCT7_SRLI then c.exec_SRLI inst
        else if funct7 = FUNCT7_SRAI then c.exec_SRAI inst
        else c
      else if funct3 = FUNCT3_ORI then c.exec_ORI inst
      else if funct3 = FUNCT3_ANDI then c.exec_ANDI inst
      else c
  else .error .unknownInstruction

/-- `Cpu.fetch`: 32-bit load at the PC through the bus. -/
def fetch (c : Cpu) : Nat := c.bus.load c.pc 32

/-- `Cpu.step`: fetch, advance PC by 4, execute, then report `False`
exactly when the PC is 0. -/
def step (c : Cpu) : Except Err (Cpu × Bool) :=
  let inst := c.fetch
  let c2 : Cpu := { c with pc := c.pc + 4 }
  match c2.execute inst with
  | .error e => .error e
  | .ok c3 => .ok (c3, if c3.pc = 0 then false else true)

/-- The register file produced by `execute` as a function of the register
file alone (the dispatch never reads the PC or the bus). -/
def execRegs (g : List Int) (inst : Nat) : Except Err (List Int) :=
  (execute ⟨⟨⟨[]⟩⟩, 0, g⟩ inst).map Cpu.regs

/-- Register 0 after a successful `execute`, `none` when `execute` raises. -/
def reg0AfterExec (c : Cpu) (inst : Nat) : Option Int :=
  (c.execute inst).toOption.map fun c2 => c2.regs.getD 0 0

end Cpu

/-- States reachable by repeated `step()` calls from a freshly constructed
CPU (over any bus, e.g. after an image was loaded). -/
inductive Reach : Cpu → Prop where
  | start (bus : Bus) : Reach (Cpu.init bus)
  | next {c c' : Cpu} {b : Bool} : Reach c → c.step = .ok (c', b) → Reach c'

/-- A CPU over empty memory, used as a concrete sample state. -/
def cpu0 : Cpu := Cpu.init ⟨⟨[]⟩⟩

/-- `cpu0` with register `x1` holding `-8`, the sample state of the SRAI
test vector. -/
def cpuNeg8 : Cpu := { cpu0 with regs := cpu0.regs.set 1 (-8) }

instance {ε α : Type} [DecidableEq ε] [DecidableEq α] : DecidableEq (Except ε α) := fun a b =>
  match a, b with
  | .ok x, .ok y =>
    if h : x = y then .isTrue (congrArg Except.ok h)
    else .isFalse (fun he => h (Except.ok.inj he))
  | .error x, .error y =>
    if h : x = y then .isTrue (congrArg Except.error h)
    else .isFalse (fun he => h (Except.error.inj he))
  | .ok _, .error _ => .isFalse (fun he => Except.noConfusion he)
  | .error _, .ok _ => .isFalse (fun he => Except.noConfusion he)

/-! ### List access helpers -/

theorem getD_set_of_lt {α : Type} (l : List α) (i : Nat) (a d : α) (h : i < l.length) :
    (l.set i a).getD i d = a := by
  rw [List.getD_eq_getElem?_getD, List.getElem?_set_self h, Option.getD_some]

theorem getD_set_of_ne {α : Type} (l : List α) {i j : Nat} (a d : α) (h : i ≠ j) :
    (l.set i a).getD j d = l.getD j d := by
  rw [List.getD_eq_getElem?_getD, List.getElem?_set_ne h, ← List.getD_eq_getElem?_getD]

theorem getD_set_zero_self (g : List Int) : (g.set 0 0).getD 0 0 = 0 := by
  cases g <;> rfl

theorem getD_nonneg_set {g : List Int} {v : Int} (hg : ∀ i, 0 ≤ g.getD i 0) (hv : 0 ≤ v)
    (n : Nat) : ∀ i, 0 ≤ (g.set n v).getD i 0 := by
  intro i
  by_cases h : n = i
  · subst h
    by_cases hl : n < g.length
    · rw [getD_set_of_lt _ _ _ _ hl]; exact hv
    · rw [List.set_eq_of_length_le (Nat.le_of_not_lt hl)]; exact hg n
  · rw [getD_set_of_ne _ _ _ h]; exact hg i

/-! ### Bit-arithmetic helpers -/

/-- ORing a value below `2 ^ k` with a multiple of `2 ^ k` is addition. -/
theorem or_shiftLeft_eq_add (k : Nat) : ∀ (u m : Nat), u < 2 ^ k → u ||| (m <<< k) = u + m <<< k := by
  induction k with
  | zero =>
    intro u m h
    simp only [pow_zero, Nat.lt_one_iff] at h
    subst h
    simp [Nat.zero_or]
  | succ k ih =>
    intro u m h
    have hbit : Nat.bit false (m <<< k) = m <<< (k + 1) := by
      simp [Nat.bit_val, Nat.shiftLeft_succ]
    have hdiv : u.div2 < 2 ^ k := by
      rw [Nat.div2_val]
      have h2 : u < 2 ^ k * 2 := by rw [← pow_succ]; exact h
      omega
    calc u ||| m <<< (k + 1)
        = Nat.bit u.bodd u.div2 ||| Nat.bit false (m <<< k) := by rw [Nat.bit_decomp, hbit]
      _ = Nat.bit (u.bodd || false) (u.div2 ||| m <<< k) := Nat.lor_bit _ _ _ _
      _ = Nat.bit u.bodd (u.div2 + m <<< k) := by rw [ih _ _ hdiv, Bool.or_false]
      _ = u + m <<< (k + 1) := by
          rw [Nat.bit_val, Nat.shiftLeft_succ]
          have hu := Nat.bodd_add_div2 u
          omega

theorem int_emod_eq (a b : Int) : a.emod b = a % b := rfl

theorem int_ediv_eq (a b : Int) : a.ediv b = a / b := rfl

theorem emod_two_pow_toNat_lt (v : Int) (j : Nat) : (v % (2 ^ j)).toNat < 2 ^ j := by
  have hp : (0 : Int) < 2 ^ j := by positivity
  have h1 := Int.emod_lt_of_pos v hp
  have h2 := Int.emod_nonneg v (ne_of_gt hp)
  rw [Int.toNat_lt h2]
  exact_mod_cast h1

/-- Splitting a Euclidean remainder at a composite modulus. -/
theorem emod_mul_decomp (v m k : Int) (hm : 0 < m) (hk : 0 < k) :
    v % (m * k) = v % m + (v / m) % k * m := by
  have h1 := Int.ediv_add_emod v m
  have h2 := Int.ediv_add_emod (v / m) k
  have key : v = (v % m + (v / m) % k * m) + m * k * ((v / m) / k) := by
    linear_combination (-1 : Int) * h1 - m * h2
  have hr : v % m < m := Int.emod_lt_of_pos v hm
  have hr0 : 0 ≤ v % m := Int.emod_nonneg v (ne_of_gt hm)
  have hr2 : (v / m) % k < k := Int.emod_lt_of_pos _ hk
  have hr20 : 0 ≤ (v / m) % k := Int.emod_nonneg _ (ne_of_gt hk)
  have hlt : v % m + (v / m) % k * m < m * k := by
    have hstep : (v / m) % k * m ≤ (k - 1) * m :=
      mul_le_mul_of_nonneg_right (by linarith) (le_of_lt hm)
    have hexp : (k - 1) * m = m * k - m := by ring
    linarith
  calc v % (m * k)
      = ((v % m + (v / m) % k * m) + m * k * ((v / m) / k)) % (m * k) := by
        rw [← key]
    _ = (v % m + (v / m) % k * m) % (m * k) := Int.add_mul_emod_self_left _ _ _
    _ = v % m + (v / m) % k * m := Int.emod_eq_of_lt (by positivity) hlt

/-- One byte peels off the low end of a remainder modulo `2 ^ ((n+1)*8)`. -/
theorem toNat_emod_byte_decomp (v : Int) (n : Nat) :
    (v % (2 ^ ((n + 1) * 8))).toNat
      = (v % (2 ^ (n * 8))).toNat + pyByte v n * 2 ^ (n * 8) := by
  have hm : (0 : Int) < 2 ^ (n * 8) := by positivity
  have hk : (0 : Int) < 2 ^ 8 := by positivity
  have hsplit : (2 : Int) ^ ((n + 1) * 8) = 2 ^ (n * 8) * 2 ^ 8 := by
    rw [← pow_add]; congr 1; ring
  have e1 : ((v % (2 ^ ((n + 1) * 8))).toNat : Int) = v % (2 ^ ((n + 1) * 8)) :=
    Int.toNat_of_nonneg (Int.emod_nonneg _ (by positivity))
  have e2 : ((v % (2 ^ (n * 8))).toNat : Int) = v % (2 ^ (n * 8)) :=
    Int.toNat_of_nonneg (Int.emod_nonneg _ (ne_of_gt hm))
  have e3 : ((pyByte v n : Nat) : Int) = (pyShiftRight v (n * 8)) % 256 := by
    unfold pyByte
    rw [int_emod_eq]
    exact Int.toNat_of_nonneg (Int.emod_nonneg _ (by norm_num))
  apply Nat.cast_injective (R := Int)
  push_cast
  rw [e1, e2, e3, hsplit, emod_mul_decomp v _ _ hm hk]
  unfold pyShiftRight
  rw [Int.fdiv_eq_ediv _ (le_of_lt hm)]
  norm_num

/-! ### The store / load folds of `Ram` -/

theorem storeFold_length (off : Nat) (v : Int) :
    ∀ (n : Nat) (g : List Nat),
      ((List.range n).foldl (fun raw i => raw.set (off + i) (pyByte v i)) g).length
        = g.length := by
  intro n
  induction n with
  | zero => intro g; rfl
  | succ n ih =>
    intro g
    rw [List.range_succ, List.foldl_append]
    simp only [List.foldl_cons, List.foldl_nil, List.length_set]
    exact ih g

theorem storeFold_getD (off : Nat) (v : Int) :
    ∀ (n : Nat) (g : List Nat), off + n ≤ g.length → ∀ i, i < n →
      ((List.range n).foldl (fun raw i => raw.set (off + i) (pyByte v i)) g).getD (off + i) 0
        = pyByte v i := by
  intro n
  induction n with
  | zero => intro g _ i hi; exact absurd hi (Nat.not_lt_zero i)
  | succ n ih =>
    intro g h i hi
    rw [List.range_succ, List.foldl_append]
    simp only [List.foldl_cons, List.foldl_nil]
    by_cases hin : i = n
    · subst hin
      apply getD_set_of_lt
      rw [storeFold_length]
      omega
    · rw [getD_set_of_ne _ _ _ (by omega : off + n ≠ off + i)]
      exact ih g (by omega) i (by omega)

theorem loadFold_eq (v : Int) (off : Nat) :
    ∀ (n : Nat) (g : List Nat),
      (∀ i, i < n → g.getD (off + i) 0 = pyByte v i) →
      (List.range n).foldl (fun result i => result ||| (g.getD (off + i) 0 <<< (i * 8))) 0
        = (v % (2 ^ (n * 8))).toNat := by
  intro n
  induction n with
  | zero =>
    intro g _
    simp [Int.emod_one]
  | succ n ih =>
    intro g hb
    rw [List.range_succ, List.foldl_append]
    simp only [List.foldl_cons, List.foldl_nil]
    rw [ih g (fun i hi => hb i (by omega)), hb n (by omega),
      or_shiftLeft_eq_add (n * 8) _ _ (emod_two_pow_toNat_lt v (n * 8)),
      Nat.shiftLeft_eq, toNat_emod_byte_decomp]

/-- The backing store written by `Ram.store`, byte by byte. -/
theorem store_raw_getD (ram : Ram) (addr size : Nat) (v : Int)
    (hlen : addr - Ram.BASE + size / 8 ≤ ram.raw.length) :
    ∀ i, i < size / 8 →
      (ram.store addr size v).raw.getD (addr - Ram.BASE + i) 0 = pyByte v i := by
  intro i hi
  unfold Ram.store
  exact storeFold_getD (addr - Ram.BASE) v (size / 8) ram.raw hlen i hi

/-- Round trip through `Ram.store` then `Ram.load`, for any byte count. -/
theorem store_load_roundtrip (ram : Ram) (addr size : Nat) (v : Int)
    (hlen : addr - Ram.BASE + size / 8 ≤ ram.raw.length) :
    (ram.store addr size v).load addr size = (v % (2 ^ (size / 8 * 8))).toNat := by
  unfold Ram.load
  exact loadFold_eq v (addr - Ram.BASE) (size / 8) (ram.store addr size v).raw
    (store_raw_getD ram addr size v hlen)

/-! ### Nonnegativity of the Python integer operators -/

theorem pyXor_nonneg {a b : Int} (ha : 0 ≤ a) (hb : 0 ≤ b) : 0 ≤ pyXor a b := by
  cases a with
  | ofNat m =>
    cases b with
    | ofNat n => exact Int.ofNat_nonneg (m ^^^ n)
    | negSucc n => exact absurd hb (not_le_of_lt (Int.negSucc_lt_zero n))
  | negSucc m => exact absurd ha (not_le_of_lt (Int.negSucc_lt_zero m))

theorem pyAnd_nonneg {a b : Int} (ha : 0 ≤ a) (hb : 0 ≤ b) : 0 ≤ pyAnd a b := by
  cases a with
  | ofNat m =>
    cases b with
    | ofNat n => exact Int.ofNat_nonneg (m &&& n)
    | negSucc n => exact absurd hb (not_le_of_lt (Int.negSucc_lt_zero n))
  | negSucc m => exact absurd ha (not_le_of_lt (Int.negSucc_lt_zero m))

theorem pyOr_nonneg {a b : Int} (ha : 0 ≤ a) (hb : 0 ≤ b) : 0 ≤ pyOr a b := by
  cases a with
  | ofNat m =>
    cases b with
    | ofNat n => exact Int.ofNat_nonneg (m ||| n)
    | negSucc n => exact absurd hb (not_le_of_lt (Int.negSucc_lt_zero n))
  | negSucc m => exact absurd ha (not_le_of_lt (Int.negSucc_lt_zero m))

theorem pyShiftRight_nonneg {a : Int} (ha : 0 ≤ a) (k : Nat) : 0 ≤ pyShiftRight a k :=
  Int.fdiv_nonneg ha (by positivity)

theorem pyShiftLeft_nonneg {a : Int} (ha : 0 ≤ a) (k : Nat) : 0 ≤ pyShiftLeft a k :=
  mul_nonneg ha (by positivity)

/-! ### Structure of `Cpu.execute` -/

/-- `execute` reads only the register file and writes only the register
file: its outcome on any state is the `execRegs` function of the registers,
with the PC and the bus passed through untouched. -/
theorem execute_determined_by_regs (c : Cpu) (inst : Nat) :
    c.execute inst = (Cpu.execRegs c.regs inst).map (fun g => { c with regs := g }) := by
  unfold Cpu.execRegs Cpu.execute
  dsimp only
  by_cases h1 : inst &&& 127 = Cpu.OP_LOAD ∨ inst &&& 127 = Cpu.OP_IMM ∨ inst &&& 127 = Cpu.OP_STORE
  case neg => simp only [if_neg h1]; rfl
  case pos =>
  simp only [if_pos h1]
  by_cases h2 : inst >>> 12 &&& 7 = Cpu.FUNCT3_ADDI
  case pos => simp only [if_pos h2]; rfl
  case neg =>
  simp only [if_neg h2]
  by_cases h3 : inst >>> 12 &&& 7 = Cpu.FUNCT3_SLL
  case pos => simp only [if_pos h3]; rfl
  case neg =>
  simp only [if_neg h3]
  by_cases h4 : inst >>> 12 &&& 7 = Cpu.FUNCT3_SLTI
  case pos => simp only [if_pos h4]; rfl
  case neg =>
  simp only [if_neg h4]
  by_cases h5 : inst >>> 12 &&& 7 = Cpu.FUNCT3_SLTIU
  case pos => simp only [if_pos h5]; rfl
  case neg =>
  simp only [if_neg h5]
  by_cases h6 : inst >>> 12 &&& 7 = Cpu.FUNCT3_XORI
  case pos => simp only [if_pos h6]; rfl
  case neg =>
  simp only [if_neg h6]
  by_cases h7 : inst >>> 12 &&& 7 = Cpu.FUNCT3_SRL_SRA
  case pos =>
    simp only [if_pos h7]
    by_cases h8 : inst >>> 25 &&& 127 = Cpu.FUNCT7_SRLI
    case pos => simp only [if_pos h8]; rfl
    case neg =>
    simp only [if_neg h8]
    by_cases h9 : inst >>> 25 &&& 127 = Cpu.FUNCT7_SRAI
    case pos => simp only [if_pos h9]; rfl
    case neg => simp only [if_neg h9]; rfl
  case neg =>
  simp only [if_neg h7]
  by_cases h10 : inst >>> 12 &&& 7 = Cpu.FUNCT3_ORI
  case pos => simp only [if_pos h10]; rfl
  case neg =>
  simp only [if_neg h10]
  by_cases h11 : inst >>> 12 &&& 7 = Cpu.FUNCT3_ANDI
  case pos => simp only [if_pos h11]; rfl
  case neg => simp only [if_neg h11]; rfl

/-- Inversion for a successful `execute`: register 0 was zeroed, and then
either nothing else happened (the silent `pass` arms) or the register named
by `rd` was overwritten with a value that is nonnegative whenever all source
registers are. -/
theorem execute_ok_regs_shape {c c2 : Cpu} {inst : Nat} (h : c.execute inst = .ok c2) :
    c2.regs = c.regs.set 0 0 ∨
    ∃ v, ((∀ i, 0 ≤ c.regs.getD i 0) → 0 ≤ v) ∧
      c2.regs = (c.regs.set 0 0).set (Cpu._rd inst) v := by
  revert h
  unfold Cpu.execute
  dsimp only
  by_cases h1 : inst &&& 127 = Cpu.OP_LOAD ∨ inst &&& 127 = Cpu.OP_IMM ∨ inst &&& 127 = Cpu.OP_STORE
  case neg => simp only [if_neg h1]; intro h; injection h
  case pos =>
  simp only [if_pos h1]
  by_cases h2 : inst >>> 12 &&& 7 = Cpu.FUNCT3_ADDI
  case pos =>
    simp only [if_pos h2]
    intro h
    injection h with h
    subst h
    exact Or.inr ⟨_, fun hc => add_nonneg (getD_nonneg_set hc le_rfl 0 _)
      (Int.natCast_nonneg _), rfl⟩
  case neg =>
  simp only [if_neg h2]
  by_cases h3 : inst >>> 12 &&& 7 = Cpu.FUNCT3_SLL
  case pos =>
    simp only [if_pos h3]
    intro h
    injection h with h
    subst h
    exact Or.inr ⟨_, fun hc => pyShiftLeft_nonneg (getD_nonneg_set hc le_rfl 0 _) _, rfl⟩
  case neg =>
  simp only [if_neg h3]
  by_cases h4 : inst >>> 12 &&& 7 = Cpu.FUNCT3_SLTI
  case pos =>
    simp only [if_pos h4]
    intro h
    injection h with h
    subst h
    exact Or.inr ⟨_, fun _ => by dsimp only; split <;> norm_num, rfl⟩
  case neg =>
  simp only [if_neg h4]
  by_cases h5 : inst >>> 12 &&& 7 = Cpu.FUNCT3_SLTIU
  case pos =>
    simp only [if_pos h5]
    intro h
    injection h with h
    subst h
    exact Or.inr ⟨_, fun _ => by dsimp only; split <;> norm_num, rfl⟩
  case neg =>
  simp only [if_neg h5]
  by_cases h6 : inst >>> 12 &&& 7 = Cpu.FUNCT3_XORI
  case pos =>
    simp only [if_pos h6]
    intro h
    injection h with h
    subst h
    exact Or.inr ⟨_, fun hc => pyXor_nonneg (getD_nonneg_set hc le_rfl 0 _)
      (Int.natCast_nonneg _), rfl⟩
  case neg =>
  simp only [if_neg h6]
  by_cases h7 : inst >>> 12 &&& 7 = Cpu.FUNCT3_SRL_SRA
  case pos =>
    simp only [if_pos h7]
    by_cases h8 : inst >>> 25 &&& 127 = Cpu.FUNCT7_SRLI
    case pos =>
      simp only [if_pos h8]
      intro h
      injection h with h
      subst h
      exact Or.inr ⟨_, fun hc => pyShiftRight_nonneg (getD_nonneg_set hc le_rfl 0 _) _, rfl⟩
    case neg =>
    simp only [if_neg h8]
    by_cases h9 : inst >>> 25 &&& 127 = Cpu.FUNCT7_SRAI
    case pos =>
      simp only [if_pos h9]
      intro h
      injection h with h
      subst h
      exact Or.inr ⟨_, fun hc => pyShiftRight_nonneg (getD_nonneg_set hc le_rfl 0 _) _, rfl⟩
    case neg =>
      simp only [if_neg h9]
      intro h
      injection h with h
      subst h
      exact Or.inl rfl
  case neg =>
  simp only [if_neg h7]
  by_cases h10 : inst >>> 12 &&& 7 = Cpu.FUNCT3_ORI
  case pos =>
    simp only [if_pos h10]
    intro h
    injection h with h
    subst h
    exact Or.inr ⟨_, fun hc => pyOr_nonneg (getD_nonneg_set hc le_rfl 0 _)
      (Int.natCast_nonneg _), rfl⟩
  case neg =>
  simp only [if_neg h10]
  by_cases h11 : inst >>> 12 &&& 7 = Cpu.FUNCT3_ANDI
  case pos =>
    simp only [if_pos h11]
    intro h
    injection h with h
    subst h
    exact Or.inr ⟨_, fun hc => pyAnd_nonneg (getD_nonneg_set hc le_rfl 0 _)
      (Int.natCast_nonneg _), rfl⟩
  case neg =>
    simp only [if_neg h11]
    intro h
    injection h with h
    subst h
    exact Or.inl rfl

theorem execute_ok_pc_bus {c c2 : Cpu} {inst : Nat} (h : c.execute inst = .ok c2) :
    c2.pc = c.pc ∧ c2.bus = c.bus := by
  rw [execute_determined_by_regs] at h
  cases hx : Cpu.execRegs c.regs inst with
  | error e => rw [hx] at h; injection h
  | ok g =>
    rw [hx] at h
    injection h with h
    subst h
    exact ⟨rfl, rfl⟩

theorem step_ok_pc {c c' : Cpu} {b : Bool} (h : Cpu.step c = .ok (c', b)) :
    c'.pc = c.pc + 4 ∧ c'.bus = c.bus := by
  simp only [Cpu.step] at h
  split at h
  · injection h
  · rename_i c3 heq
    injection h with h
    injection h with h hb
    subst h
    exact execute_ok_pc_bus heq

/-! ### The register-file invariants along a run -/

theorem execute_regs_nonneg {c c2 : Cpu} {inst : Nat}
    (hc : ∀ i, 0 ≤ c.regs.getD i 0) (h : c.execute inst = .ok c2) :
    ∀ i, 0 ≤ c2.regs.getD i 0 := by
  intro i
  rcases execute_ok_regs_shape h with hsh | ⟨v, hv, hsh⟩
  · rw [hsh]; exact getD_nonneg_set hc le_rfl 0 i
  · rw [hsh]; exact getD_nonneg_set (getD_nonneg_set hc le_rfl 0) (hv hc) _ i

theorem init_regs_nonneg (bus : Bus) : ∀ i, 0 ≤ (Cpu.init bus).regs.getD i 0 := by
  have hrep : ∀ j, 0 ≤ (List.replicate 32 (0 : Int)).getD j 0 := by
    intro j
    rw [List.getD_eq_getElem?_getD, List.getElem?_replicate]
    split <;> norm_num
  exact getD_nonneg_set hrep (by positivity) _

theorem step_regs_nonneg {c c' : Cpu} {b : Bool}
    (hc : ∀ i, 0 ≤ c.regs.getD i 0) (h : Cpu.step c = .ok (c', b)) :
    ∀ i, 0 ≤ c'.regs.getD i 0 := by
  revert h
  simp only [Cpu.step]
  split
  · intro hstep; injection hstep
  · rename_i c3 heq
    intro hstep
    injection hstep with hstep
    injection hstep with hstep hb
    subst hstep
    exact execute_regs_nonneg (c := { c with pc := c.pc + 4 }) hc heq

theorem reach_regs_nonneg {c : Cpu} (h : Reach c) : ∀ i, 0 ≤ c.regs.getD i 0 := by
  induction h with
  | start bus => exact init_regs_nonneg bus
  | next hre hstep ih => exact step_regs_nonneg ih hstep

/-! ### Register 0 after `execute` -/

theorem reg0_after_exec_of_rd_ne {c : Cpu} {inst : Nat} (hrd : Cpu._rd inst ≠ 0) :
    Cpu.reg0AfterExec c inst = some 0 ∨ Cpu.reg0AfterExec c inst = none := by
  cases hex : c.execute inst with
  | error e =>
    right
    unfold Cpu.reg0AfterExec
    rw [hex]
    rfl
  | ok c2 =>
    left
    have hred : Cpu.reg0AfterExec c inst = some (c2.regs.getD 0 0) := by
      unfold Cpu.reg0AfterExec
      rw [hex]
      rfl
    rw [hred]
    rcases execute_ok_regs_shape hex with hsh | ⟨v, hv, hsh⟩
    · rw [hsh, getD_set_zero_self]
    · rw [hsh, getD_set_of_ne _ _ _ hrd, getD_set_zero_self]

/-- A small negative value floor-divided by a power of two at least its
magnitude gives `-1`: the Python arithmetic shift never reaches `0` from
below. -/
theorem pyShiftRight_neg_small {m : Int} {k : Nat} (h0 : 0 < m) (h : m ≤ 2 ^ k) :
    pyShiftRight (-m) k = -1 := by
  unfold pyShiftRight
  have hb : (0 : Int) < 2 ^ k := by positivity
  rw [Int.fdiv_eq_ediv _ (le_of_lt hb)]
  have key : -m = (2 ^ k - m) + -1 * 2 ^ k := by ring
  rw [key, Int.add_mul_ediv_right _ _ (ne_of_gt hb),
    Int.ediv_eq_zero_of_lt (by linarith) (by linarith)]
  norm_num

/-! ### The claims -/

/-- C1 (counterexample): after one `step()` over memory holding the word
`0x00100013` — `ADDI x0, x0, 1`, whose `rd` field is 0 — register 0 reads 1,
not 0: the zeroing happens before dispatch, so the write of the executed
instruction itself survives the step. -/
theorem c1_counterexample :
    Cpu._rd 0x00100013 = 0 ∧
    ((Cpu.init ⟨⟨[0x13, 0x00, 0x10, 0x00]⟩⟩).step.toOption.map
        fun p => p.1.regs.getD 0 0) = some 1 ∧
    some (1 : Int) ≠ some (0 : Int) := by decide

/-- C1 (amended): register 0 is forced to zero at the start of every
`execute`, before dispatch; hence after any `execute` of an instruction
whose `rd` field is nonzero (or with no effect), register 0 reads 0 — only
an executed instruction that itself names `rd = 0` can leave register 0
nonzero after `step()`. -/
theorem c1_reg0_zero_unless_rd_writes :
    ∀ (c : Cpu) (inst : Nat), Cpu._rd inst ≠ 0 →
      Cpu.reg0AfterExec c inst = some 0 ∨ Cpu.reg0AfterExec c inst = none :=
  fun _ _ h => reg0_after_exec_of_rd_ne h

theorem c1_witness :
    Cpu.reg0AfterExec cpu0 0x00100093 = some 0 ∨
      Cpu.reg0AfterExec cpu0 0x00100093 = none :=
  c1_reg0_zero_unless_rd_writes cpu0 0x00100093 (by decide)

/-- C2 (code bug): `exec_SRAI` shifts by the full 12-bit I-immediate
(here 1025, funct7 bits included) instead of the 5-bit `shamt` (here 1);
on `rs1 = -8` with `shamt = 1` — instruction word `0x4010D093`,
`SRAI x1, x1, 1` — it writes `-1` where the claim (and the RISC-V SRAI
semantics) expects `-8 >> 1 = -4`.  The Python shift itself is arithmetic,
as the last conjunct records. -/
theorem c2_srai_shifts_by_full_imm :
    Cpu._imm_I 0x4010D093 = 1025 ∧ Cpu._shamt 0x4010D093 = 1 ∧
    (cpuNeg8.exec_SRAI 0x4010D093).regs.getD 1 0 = -1 ∧
    pyShiftRight (-8) 1 = -4 := by
  refine ⟨by decide, by decide, ?_, by decide⟩
  have h1 : Cpu._rd 0x4010D093 = 1 := by decide
  have h2 : Cpu._rs1 0x4010D093 = 1 := by decide
  have h3 : Cpu._imm_I 0x4010D093 = 1025 := by decide
  have h4 : cpuNeg8.regs.getD 1 0 = -8 := by decide
  have hlen : 1 < cpuNeg8.regs.length := by decide
  show (cpuNeg8.regs.set (Cpu._rd 0x4010D093)
      (pyShiftRight (cpuNeg8.regs.getD (Cpu._rs1 0x4010D093) 0)
        (Cpu._imm_I 0x4010D093))).getD 1 0 = -1
  rw [h1, h2, h3, h4, getD_set_of_lt _ _ _ _ hlen]
  exact pyShiftRight_neg_small (by norm_num)
    (by calc (8 : Int) = 2 ^ 3 := by norm_num
          _ ≤ 2 ^ 1025 := pow_le_pow_right₀ (by norm_num) (by norm_num))

/-- C3 (code bug): the U-type decoder masks with `0xFFFFF999`, not
`0xFFFFF000`; on input `0x00000FFF` (bits 31:12 all zero) it returns
`0x999` instead of the `0` the claim requires — bits 0, 3, 4, 7, 8 and 11
of the low twelve survive. -/
theorem c3_imm_U_keeps_low_bits :
    Cpu._imm_U 0x00000FFF = 0x999 ∧ (0x999 : Nat) ≠ 0 := by decide

/-- C4 (counterexample): the word `0x02005013` has opcode IMM,
funct3 `0b101` and funct7 `0b0000001` — neither the SRLI nor the SRAI
value — yet `execute` succeeds silently (the bare `pass` arm) instead of
failing with the invalid-instruction error the claim requires. -/
theorem c4_counterexample :
    0x02005013 &&& 0x7F = Cpu.OP_IMM ∧
    (0x02005013 : Nat) >>> 12 &&& 0x7 = Cpu.FUNCT3_SRL_SRA ∧
    (0x02005013 : Nat) >>> 25 &&& 0x7F ≠ Cpu.FUNCT7_SRLI ∧
    (0x02005013 : Nat) >>> 25 &&& 0x7F ≠ Cpu.FUNCT7_SRAI ∧
    (cpu0.execute 0x02005013).isOk = true := by decide

/-- C4 (amended): an instruction word whose opcode is outside
LOAD / IMM / STORE fails fatally with the unknown-instruction error; a word
with opcode in that set, funct3 = 0b101 and funct7 neither the SRLI nor the
SRAI value — the combination the claim singles out — does not fail: it is
executed as a silent no-op, register 0 zeroed and nothing else, no error. -/
theorem c4_dispatch_behaviour :
    ∀ (c : Cpu) (inst : Nat),
      (¬(inst &&& 0x7F = Cpu.OP_LOAD ∨ inst &&& 0x7F = Cpu.OP_IMM ∨
          inst &&& 0x7F = Cpu.OP_STORE) →
        c.execute inst = .error .unknownInstruction) ∧
      ((inst &&& 0x7F = Cpu.OP_LOAD ∨ inst &&& 0x7F = Cpu.OP_IMM ∨
          inst &&& 0x7F = Cpu.OP_STORE) →
        inst >>> 12 &&& 0x7 = Cpu.FUNCT3_SRL_SRA →
        inst >>> 25 &&& 0x7F ≠ Cpu.FUNCT7_SRLI →
        inst >>> 25 &&& 0x7F ≠ Cpu.FUNCT7_SRAI →
        c.execute inst = .ok { c with regs := c.regs.set 0 0 }) := by
  intro c inst
  constructor
  · intro hop
    unfold Cpu.execute
    dsimp only
    rw [if_neg hop]
  · intro hop h3 h7a h7b
    unfold Cpu.execute
    dsimp only
    rw [if_pos hop, h3,
      if_neg (by decide : ¬(Cpu.FUNCT3_SRL_SRA = Cpu.FUNCT3_ADDI)),
      if_neg (by decide : ¬(Cpu.FUNCT3_SRL_SRA = Cpu.FUNCT3_SLL)),
      if_neg (by decide : ¬(Cpu.FUNCT3_SRL_SRA = Cpu.FUNCT3_SLTI)),
      if_neg (by decide : ¬(Cpu.FUNCT3_SRL_SRA = Cpu.FUNCT3_SLTIU)),
      if_neg (by decide : ¬(Cpu.FUNCT3_SRL_SRA = Cpu.FUNCT3_XORI)),
      if_pos (rfl : Cpu.FUNCT3_SRL_SRA = Cpu.FUNCT3_SRL_SRA),
      if_neg h7a, if_neg h7b]

theorem c4_witness :
    cpu0.execute 0 = .error .unknownInstruction ∧
    cpu0.execute 0x02005013 = .ok { cpu0 with regs := cpu0.regs.set 0 0 } :=
  ⟨(c4_dispatch_behaviour cpu0 0).1 (by decide),
   (c4_dispatch_behaviour cpu0 0x02005013).2 (by decide) (by decide) (by decide) (by decide)⟩

/-- C5: the reference implementation of SLTIU is the very same function as
SLTI — for every instruction word and register-file state the two handlers
produce identical machine states. -/
theorem c5_sltiu_is_slti : ∀ (c : Cpu) (inst : Nat), c.exec_SLTIU inst = c.exec_SLTI inst :=
  fun _ _ => rfl

/-- C6: for widths 8, 16, 32 and 64 bits, storing any integer `v` at an
in-range address and loading it back returns `v mod 2^w`, the bytes being
laid out little-endian (byte `i` of the backing store holds
`(v >> (i*8)) mod 256`). -/
theorem c6_store_load_roundtrip :
    ∀ (ram : Ram) (addr w : Nat) (v : Int),
      (w = 8 ∨ w = 16 ∨ w = 32 ∨ w = 64) → Ram.BASE ≤ addr →
      addr - Ram.BASE + w / 8 ≤ ram.raw.length →
      (ram.store addr w v).load addr w = (v % (2 ^ w)).toNat ∧
      (∀ i, i < w / 8 →
        (ram.store addr w v).raw.getD (addr - Ram.BASE + i) 0 = pyByte v i) := by
  intro ram addr w v hw hbase hlen
  constructor
  · rw [store_load_roundtrip ram addr w v hlen]
    rcases hw with rfl | rfl | rfl | rfl <;> norm_num
  · exact store_raw_getD ram addr w v hlen

theorem c6_witness :
    (Ram.store ⟨List.replicate 8 0⟩ Ram.BASE 16 (-2)).load Ram.BASE 16
        = ((-2 : Int) % (2 ^ 16)).toNat ∧
    (Ram.store ⟨List.replicate 8 0⟩ Ram.BASE 16 (-2)).raw.getD
        (Ram.BASE - Ram.BASE + 0) 0 = pyByte (-2) 0 :=
  ⟨(c6_store_load_roundtrip ⟨List.replicate 8 0⟩ Ram.BASE 16 (-2)
      (by norm_num) le_rfl (by decide)).1,
   (c6_store_load_roundtrip ⟨List.replicate 8 0⟩ Ram.BASE 16 (-2)
      (by norm_num) le_rfl (by decide)).2 0 (by decide)⟩

/-- C7: loading an image of more than `SIZE` bytes fails with the
image-too-large error, and the backing store is returned unmodified — the
assertion fires before the store is replaced. -/
theorem c7_read_file_too_large :
    ∀ (ram : Ram) (data : List Nat), Ram.SIZE < data.length →
      ram.read_file data = (some Err.pathTooLarge, ram) := by
  intro ram data h
  have hgt : ¬((data.take (Ram.SIZE + 1)).length ≤ Ram.SIZE) := by
    rw [List.length_take]
    omega
  unfold Ram.read_file
  dsimp only
  rw [if_neg hgt]

theorem c7_witness :
    Ram.init.read_file (List.replicate (Ram.SIZE + 1) 0)
      = (some Err.pathTooLarge, Ram.init) :=
  c7_read_file_too_large Ram.init _
    (by rw [List.length_replicate]; exact Nat.lt_succ_self _)

/-- C8: the PC starts at the memory base address, every successful `step()`
advances it by exactly 4 (nothing else ever writes it), and in every state
reachable from a freshly constructed CPU the PC is a multiple of 4. -/
theorem c8_pc_invariant :
    (∀ bus : Bus, (Cpu.init bus).pc = Ram.BASE) ∧
    (∀ (c c' : Cpu) (b : Bool), Cpu.step c = .ok (c', b) → c'.pc = c.pc + 4) ∧
    (∀ c : Cpu, Reach c → 4 ∣ c.pc) := by
  refine ⟨fun _ => rfl, fun c c' b h => (step_ok_pc h).1, fun c h => ?_⟩
  induction h with
  | start bus => exact ⟨0x20000000, by norm_num [Cpu.init, Ram.BASE]⟩
  | next hre hstep ih =>
    rw [(step_ok_pc hstep).1]
    omega

theorem c8_witness :
    (Cpu.init ⟨⟨[0x13, 0x00, 0x00, 0x00]⟩⟩).pc = Ram.BASE ∧
    (Cpu.mk ⟨⟨[0x13, 0x00, 0x00, 0x00]⟩⟩ (Ram.BASE + 4)
        (((List.replicate 32 (0 : Int)).set 2 0x80100001).set 0 0)).pc
      = (Cpu.init ⟨⟨[0x13, 0x00, 0x00, 0x00]⟩⟩).pc + 4 ∧
    4 ∣ (Cpu.init ⟨⟨[0x13, 0x00, 0x00, 0x00]⟩⟩).pc :=
  ⟨c8_pc_invariant.1 _,
   c8_pc_invariant.2.1 _ _ true (by decide),
   c8_pc_invariant.2.2 _ (Reach.start _)⟩

/-- C9 (counterexample): a single SLLI — word `0x01F11093`,
`SLLI x1, x2, 31` — executed from the freshly constructed state (where the
stack pointer `x2` holds `0x80100001`) writes `0x80100001 * 2^31` into
`x1`, a value not representable in 32 bits (it is not below `2^32`):
results are never reduced to the 32-bit word width. -/
theorem c9_counterexample :
    ((cpu0.execute 0x01F11093).toOption.map fun c2 => c2.regs.getD 1 0)
        = some (0x80100001 * 2 ^ 31) ∧
    ¬(0x80100001 * (2 : Int) ^ 31 < 2 ^ 32) := by decide

/-- C9 (amended): register values are arbitrary-precision integers — no
reduction to a 32-bit word is ever applied, and a single instruction can
overflow 32 bits — but every register in every reachable state is
nonnegative, since the decoded immediates are unsigned and every handler
preserves nonnegativity. -/
theorem c9_regs_nonneg_unbounded : ∀ c : Cpu, Reach c → ∀ i, 0 ≤ c.regs.getD i 0 :=
  fun _ h => reach_regs_nonneg h

theorem c9_witness : 0 ≤ cpu0.regs.getD 2 0 :=
  c9_regs_nonneg_unbounded cpu0 (Reach.start ⟨⟨[]⟩⟩) 2

/-- C10: `execute` reads and writes only the register file — its outcome is
a function `execRegs` of the registers and the instruction word alone, and
on success the PC and the bus (hence the memory) are passed through
unchanged; no bus access happens inside `execute`, the only memory access
of a step being the 32-bit fetch in `step()` itself. -/
theorem c10_execute_frame :
    ∀ (c : Cpu) (inst : Nat),
      c.execute inst = (Cpu.execRegs c.regs inst).map (fun g => { c with regs := g }) :=
  execute_determined_by_regs

end Emulator
